import Mathlib

/-
Verification of the diff utility `calculateDiff` from src/index.tsx of the
IEtxt repository.

The embedding models JavaScript strings as lists of characters (`Str`).
`splitWs` models `str.split(/(\s+)/)`: the string is cut at maximal runs of
whitespace and, because of the capture group, the whitespace runs themselves
appear in the token list; the (possibly empty) non-whitespace chunks before,
between and after the runs are kept.  `lcsMat` models the dynamic-programming
matrix, `loopStep`/`loopRun` model one iteration and the whole backtracking
`while` loop (with an explicit fuel bound and the `unshift` accumulator), and
`calculateDiff` composes them exactly as the source does.
-/

namespace IEtxt

/-- JavaScript strings are modelled as lists of Unicode characters. -/
abbrev Str := List Char

/-- Characters matched by the JavaScript regular-expression class \s
(whitespace, line terminators, NBSP, Unicode space separators, BOM). -/
def isJsWs (c : Char) : Bool :=
  c = ' ' || c = '\t' || c = '\n' || c = '\r' ||
  c.toNat = 11 || c.toNat = 12 || c.toNat = 160 || c.toNat = 5760 ||
  (8192 ≤ c.toNat && c.toNat ≤ 8202) || c.toNat = 8232 || c.toNat = 8233 ||
  c.toNat = 8239 || c.toNat = 8287 || c.toNat = 12288 || c.toNat = 65279

/-- Fuelled worker for `splitWs`.  Each step removes the leading
non-whitespace chunk and, when the remainder is non-empty, the following
(non-empty) whitespace run, so `cs.length + 1` fuel always suffices. -/
def splitWsF : Nat → Str → List Str
  | 0, _ => []
  | fuel + 1, cs =>
    let chunk := cs.takeWhile fun c => !isJsWs c
    let rest := cs.dropWhile fun c => !isJsWs c
    match rest with
    | [] => [chunk]
    | _ :: _ => chunk :: rest.takeWhile isJsWs :: splitWsF fuel (rest.dropWhile isJsWs)

/-- Model of the JavaScript expression `str.split(/(\s+)/)`.
In particular `splitWs [] = [[]]`, matching `"".split(/(\s+)/) === [""]`. -/
def splitWs (cs : Str) : List Str :=
  splitWsF (cs.length + 1) cs

/-- Array indexing `words[k]` on the token array (always in range where the
source uses it; out of range it defaults to the empty token). -/
def tok (words : List Str) (k : Nat) : Str :=
  words.getD k []

/-- Row `i + 1` of the LCS matrix, given row `i` as the function `prev`.
`lcsRow ow rw prev i j` is `matrix[i+1][j]` of the source. -/
def lcsRow (ow rw : List Str) (prev : Nat → Nat) (i : Nat) : Nat → Nat
  | 0 => 0
  | j + 1 =>
    if tok ow i = tok rw j then prev j + 1
    else max (prev (j + 1)) (lcsRow ow rw prev i j)

/-- The dynamic-programming matrix of `calculateDiff`:
`lcsMat ow rw i j` is `matrix[i][j]`, the length of a longest common
subsequence of the first `i` tokens of `ow` and the first `j` tokens of
`rw` (rows and columns 0 are all 0). -/
def lcsMat (ow rw : List Str) : Nat → Nat → Nat
  | 0 => fun _ => 0
  | i + 1 => lcsRow ow rw (lcsMat ow rw i) i

/-- Segment classification: `'added' | 'removed' | 'common'`. -/
inductive DiffType : Type
  | added
  | removed
  | common
deriving DecidableEq, Repr

/-- One element `{ value, type }` of the result array of `calculateDiff`. -/
structure Seg : Type where
  value : Str
  type : DiffType
deriving DecidableEq, Repr

/-- One iteration of the backtracking `while` loop of `calculateDiff` at
position `(i, j)`: the chosen branch returns the emitted segment and the new
`(i, j)`; `none` models the fallback `break`. -/
def loopStep (ow rw : List Str) (mat : Nat → Nat → Nat) (i j : Nat) :
    Option (Seg × Nat × Nat) :=
  if 0 < i ∧ 0 < j ∧ tok ow (i - 1) = tok rw (j - 1) then
    some (⟨tok ow (i - 1), DiffType.common⟩, i - 1, j - 1)
  else if 0 < j ∧ (i = 0 ∨ mat i (j - 1) ≥ mat (i - 1) j) then
    some (⟨tok rw (j - 1), DiffType.added⟩, i, j - 1)
  else if 0 < i ∧ (j = 0 ∨ mat i (j - 1) < mat (i - 1) j) then
    some (⟨tok ow (i - 1), DiffType.removed⟩, i - 1, j)
  else none

/-- The backtracking `while (i > 0 || j > 0)` loop, with an explicit fuel
bound; `res` is the accumulator that the source grows with `unshift`.
Returns the final `(i, j, result)`. -/
def loopRun (ow rw : List Str) (mat : Nat → Nat → Nat) :
    Nat → Nat → Nat → List Seg → Nat × Nat × List Seg
  | 0, i, j, res => (i, j, res)
  | fuel + 1, i, j, res =>
    if 0 < i ∨ 0 < j then
      match loopStep ow rw mat i j with
      | some (s, i2, j2) => loopRun ow rw mat fuel i2 j2 (s :: res)
      | none => (i, j, res)
    else (i, j, res)

/-- Model of `calculateDiff` from src/index.tsx: tokenize both strings with
`split(/(\s+)/)`, fill the LCS matrix, then backtrack from
`(originalWords.length, revisedWords.length)`.  The fuel
`originalWords.length + revisedWords.length` is exactly the maximal number
of loop iterations. -/
def calculateDiff (original revised : Str) : List Seg :=
  let originalWords := splitWs original
  let revisedWords := splitWs revised
  let matrix := lcsMat originalWords revisedWords
  (loopRun originalWords revisedWords matrix
    (originalWords.length + revisedWords.length)
    originalWords.length revisedWords.length []).2.2

/-- Pure form of the backtracking loop (no accumulator), with fuel: the list
of segments emitted from position `(i, j)` down, in final (front-of-string
first) order. -/
def btF (ow rw : List Str) (mat : Nat → Nat → Nat) : Nat → Nat → Nat → List Seg
  | 0, _, _ => []
  | fuel + 1, i, j =>
    if 0 < i ∧ 0 < j ∧ tok ow (i - 1) = tok rw (j - 1) then
      btF ow rw mat fuel (i - 1) (j - 1) ++ [⟨tok ow (i - 1), DiffType.common⟩]
    else if 0 < j ∧ (i = 0 ∨ mat i (j - 1) ≥ mat (i - 1) j) then
      btF ow rw mat fuel i (j - 1) ++ [⟨tok rw (j - 1), DiffType.added⟩]
    else if 0 < i ∧ (j = 0 ∨ mat i (j - 1) < mat (i - 1) j) then
      btF ow rw mat fuel (i - 1) j ++ [⟨tok ow (i - 1), DiffType.removed⟩]
    else []

/-- Does a segment count towards the original string (`common` or `removed`)? -/
def keepOrig (s : Seg) : Bool :=
  match s.type with
  | DiffType.added => false
  | _ => true

/-- Does a segment count towards the revised string (`common` or `added`)? -/
def keepRev (s : Seg) : Bool :=
  match s.type with
  | DiffType.removed => false
  | _ => true

/-- Is a segment classified `added`? -/
def isAdded (s : Seg) : Bool :=
  match s.type with
  | DiffType.added => true
  | _ => false

/-- Concatenation of the values of the `common` and `removed` segments. -/
def origSide (segs : List Seg) : Str :=
  ((segs.filter keepOrig).map Seg.value).flatten

/-- Concatenation of the values of the `common` and `added` segments. -/
def revSide (segs : List Seg) : Str :=
  ((segs.filter keepRev).map Seg.value).flatten

/-- Concatenation of the values of the `added` segments only. -/
def addedSide (segs : List Seg) : Str :=
  ((segs.filter isAdded).map Seg.value).flatten

section Helpers

/-- The head of a `dropWhile` residue fails the predicate. -/
theorem dropWhile_head_false (p : Char → Bool) :
    ∀ (l : Str) (a : Char) (t : Str), l.dropWhile p = a :: t → p a = false := by
  intro l
  induction l with
  | nil => intro a t h; simp [List.dropWhile] at h
  | cons b l ih =>
    intro a t h
    rw [List.dropWhile_cons] at h
    by_cases hb : p b = true
    · rw [if_pos hb] at h; exact ih a t h
    · rw [if_neg hb] at h
      cases h
      simpa using hb

/-- A `dropWhile` residue is no longer than the list. -/
theorem length_dropWhile_le' (p : Char → Bool) :
    ∀ l : Str, (l.dropWhile p).length ≤ l.length := by
  intro l
  induction l with
  | nil => simp [List.dropWhile]
  | cons b l ih =>
    rw [List.dropWhile_cons]
    by_cases hb : p b = true
    · rw [if_pos hb]; simp; omega
    · rw [if_neg hb]

/-- With enough fuel, the tokens produced by `splitWsF` concatenate back to
the input string: the `split(/(\s+)/)` tokenization loses nothing. -/
theorem splitWsF_flatten :
    ∀ (fuel : Nat) (cs : Str), cs.length < fuel → (splitWsF fuel cs).flatten = cs := by
  intro fuel
  induction fuel with
  | zero => intro cs h; omega
  | succ f ih =>
    intro cs h
    simp only [splitWsF]
    rcases hr : cs.dropWhile (fun c => !isJsWs c) with _ | ⟨a, t⟩
    · simp only [List.flatten_cons, List.flatten_nil, List.append_nil]
      have := List.takeWhile_append_dropWhile (fun c => !isJsWs c) cs
      rw [hr, List.append_nil] at this
      exact this
    · have ha : isJsWs a = true := by
        have := dropWhile_head_false (fun c => !isJsWs c) cs a t hr
        simpa using this
      have hlen : ((a :: t).dropWhile isJsWs).length < f := by
        rw [List.dropWhile_cons, if_pos ha]
        have h1 := length_dropWhile_le' isJsWs t
        have h2 : (a :: t).length ≤ cs.length := by
          rw [← hr]; exact length_dropWhile_le' _ cs
        simp at h2
        omega
      dsimp only
      simp only [List.flatten_cons]
      rw [ih _ hlen]
      rw [List.takeWhile_append_dropWhile, ← hr, List.takeWhile_append_dropWhile]

/-- The tokens of `splitWs cs` concatenate back to `cs`. -/
theorem splitWs_flatten (cs : Str) : (splitWs cs).flatten = cs :=
  splitWsF_flatten (cs.length + 1) cs (Nat.lt_succ_self _)

/-- When neither the `added` branch nor the `removed` branch of the
backtracking loop applies, both indices are zero (`x` stands for
`matrix[i][j-1]` and `y` for `matrix[i-1][j]`). -/
theorem branches_exhaust {i j x y : Nat}
    (h2 : ¬ (0 < j ∧ (i = 0 ∨ x ≥ y)))
    (h3 : ¬ (0 < i ∧ (j = 0 ∨ x < y))) : i = 0 ∧ j = 0 := by
  omega

/-- Splitting off the last element of a `take`. -/
theorem take_sub_one {α : Type} (d : α) (l : List α) (i : Nat)
    (h0 : 0 < i) (h : i ≤ l.length) :
    l.take i = l.take (i - 1) ++ [l.getD (i - 1) d] := by
  obtain ⟨k, rfl⟩ : ∃ k, i = k + 1 := ⟨i - 1, by omega⟩
  simp only [Nat.add_sub_cancel]
  rw [List.take_succ, List.getElem?_eq_getElem (by omega : k < l.length),
    List.getD_eq_getElem l d (by omega : k < l.length)]
  rfl

theorem origSide_append (l1 l2 : List Seg) :
    origSide (l1 ++ l2) = origSide l1 ++ origSide l2 := by
  simp [origSide, List.filter_append]

theorem revSide_append (l1 l2 : List Seg) :
    revSide (l1 ++ l2) = revSide l1 ++ revSide l2 := by
  simp [revSide, List.filter_append]

end Helpers

section MainLemmas

/-- From position `(i, j)`, the `common` and `removed` values emitted by the
pure backtracking concatenate to the first `i` tokens of the original. -/
theorem btF_origSide (ow rw : List Str) (mat : Nat → Nat → Nat) :
    ∀ (fuel i j : Nat), i + j ≤ fuel → i ≤ ow.length →
      origSide (btF ow rw mat fuel i j) = (ow.take i).flatten := by
  intro fuel
  induction fuel with
  | zero =>
    intro i j hf hi
    have h0 : i = 0 := by omega
    subst h0
    simp [btF, origSide]
  | succ f ih =>
    intro i j hf hi
    simp only [btF]
    by_cases h1 : 0 < i ∧ 0 < j ∧ tok ow (i - 1) = tok rw (j - 1)
    · rw [if_pos h1, origSide_append, ih (i - 1) (j - 1) (by omega) (by omega)]
      rw [take_sub_one [] ow i h1.1 hi, List.flatten_append]
      simp [origSide, keepOrig, tok]
    · rw [if_neg h1]
      by_cases h2 : 0 < j ∧ (i = 0 ∨ mat i (j - 1) ≥ mat (i - 1) j)
      · rw [if_pos h2, origSide_append, ih i (j - 1) (by omega) hi]
        simp [origSide, keepOrig]
      · rw [if_neg h2]
        by_cases h3 : 0 < i ∧ (j = 0 ∨ mat i (j - 1) < mat (i - 1) j)
        · rw [if_pos h3, origSide_append, ih (i - 1) j (by omega) (by omega)]
          rw [take_sub_one [] ow i h3.1 hi, List.flatten_append]
          simp [origSide, keepOrig, tok]
        · rw [if_neg h3]
          obtain ⟨hi0, hj0⟩ := branches_exhaust h2 h3
          subst hi0
          simp [origSide]

/-- From position `(i, j)`, the `common` and `added` values emitted by the
pure backtracking concatenate to the first `j` tokens of the revision. -/
theorem btF_revSide (ow rw : List Str) (mat : Nat → Nat → Nat) :
    ∀ (fuel i j : Nat), i + j ≤ fuel → j ≤ rw.length →
      revSide (btF ow rw mat fuel i j) = (rw.take j).flatten := by
  intro fuel
  induction fuel with
  | zero =>
    intro i j hf hj
    have h0 : j = 0 := by omega
    subst h0
    simp [btF, revSide]
  | succ f ih =>
    intro i j hf hj
    simp only [btF]
    by_cases h1 : 0 < i ∧ 0 < j ∧ tok ow (i - 1) = tok rw (j - 1)
    · rw [if_pos h1, revSide_append, ih (i - 1) (j - 1) (by omega) (by omega)]
      rw [take_sub_one [] rw j h1.2.1 hj, List.flatten_append, h1.2.2]
      simp [revSide, keepRev, tok]
    · rw [if_neg h1]
      by_cases h2 : 0 < j ∧ (i = 0 ∨ mat i (j - 1) ≥ mat (i - 1) j)
      · rw [if_pos h2, revSide_append, ih i (j - 1) (by omega) (by omega)]
        rw [take_sub_one [] rw j h2.1 hj, List.flatten_append]
        simp [revSide, keepRev, tok]
      · rw [if_neg h2]
        by_cases h3 : 0 < i ∧ (j = 0 ∨ mat i (j - 1) < mat (i - 1) j)
        · rw [if_pos h3, revSide_append, ih (i - 1) j (by omega) hj]
          simp [revSide, keepRev]
        · rw [if_neg h3]
          obtain ⟨hi0, hj0⟩ := branches_exhaust h2 h3
          subst hj0
          simp [revSide]

/-- From position `(i, j)` the pure backtracking emits exactly `i` segments
counting towards the original (`common`/`removed`) and exactly `j` counting
towards the revision (`common`/`added`): one segment per consumed token. -/
theorem btF_counts (ow rw : List Str) (mat : Nat → Nat → Nat) :
    ∀ (fuel i j : Nat), i + j ≤ fuel →
      ((btF ow rw mat fuel i j).filter keepOrig).length = i ∧
      ((btF ow rw mat fuel i j).filter keepRev).length = j := by
  intro fuel
  induction fuel with
  | zero =>
    intro i j hf
    have h0 : i = 0 := by omega
    have h0' : j = 0 := by omega
    subst h0
    subst h0'
    simp [btF]
  | succ f ih =>
    intro i j hf
    simp only [btF]
    by_cases h1 : 0 < i ∧ 0 < j ∧ tok ow (i - 1) = tok rw (j - 1)
    · rw [if_pos h1]
      obtain ⟨c1, c2⟩ := ih (i - 1) (j - 1) (by omega)
      constructor
      · simp only [List.filter_append, List.length_append, c1]
        simp [keepOrig]
        omega
      · simp only [List.filter_append, List.length_append, c2]
        simp [keepRev]
        omega
    · rw [if_neg h1]
      by_cases h2 : 0 < j ∧ (i = 0 ∨ mat i (j - 1) ≥ mat (i - 1) j)
      · rw [if_pos h2]
        obtain ⟨c1, c2⟩ := ih i (j - 1) (by omega)
        constructor
        · simp only [List.filter_append, List.length_append, c1]
          simp [keepOrig]
        · simp only [List.filter_append, List.length_append, c2]
          simp [keepRev]
          omega
      · rw [if_neg h2]
        by_cases h3 : 0 < i ∧ (j = 0 ∨ mat i (j - 1) < mat (i - 1) j)
        · rw [if_pos h3]
          obtain ⟨c1, c2⟩ := ih (i - 1) j (by omega)
          constructor
          · simp only [List.filter_append, List.length_append, c1]
            simp [keepOrig]
            omega
          · simp only [List.filter_append, List.length_append, c2]
            simp [keepRev]
        · rw [if_neg h3]
          obtain ⟨hi0, hj0⟩ := branches_exhaust h2 h3
          subst hi0
          subst hj0
          simp

/-- On the diagonal (`i = j`, identical token lists) the pure backtracking
emits exactly the first `i` tokens, all classified `common`. -/
theorem btF_diag (ow : List Str) (mat : Nat → Nat → Nat) :
    ∀ (fuel i : Nat), i + i ≤ fuel → i ≤ ow.length →
      btF ow ow mat fuel i i =
        (ow.take i).map (fun t => Seg.mk t DiffType.common) := by
  intro fuel
  induction fuel with
  | zero =>
    intro i hf hi
    have h0 : i = 0 := by omega
    subst h0
    simp [btF]
  | succ f ih =>
    intro i hf hi
    by_cases hi0 : 0 < i
    · simp only [btF]
      rw [if_pos (⟨hi0, hi0, trivial⟩ : 0 < i ∧ 0 < i ∧ True),
        ih (i - 1) (by omega) (by omega)]
      rw [take_sub_one [] ow i hi0 hi, List.map_append]
      simp [tok]
    · have h0 : i = 0 := by omega
      subst h0
      simp [btF]

/-- With fuel at least `i + j`, the accumulator loop reaches `(0, 0)` and its
result is the pure backtracking output prepended to the accumulator. -/
theorem loopRun_eq (ow rw : List Str) (mat : Nat → Nat → Nat) :
    ∀ (fuel i j : Nat) (res : List Seg), i + j ≤ fuel →
      loopRun ow rw mat fuel i j res =
        (0, 0, btF ow rw mat fuel i j ++ res) := by
  intro fuel
  induction fuel with
  | zero =>
    intro i j res hf
    have h0 : i = 0 := by omega
    have h0' : j = 0 := by omega
    subst h0
    subst h0'
    simp [loopRun, btF]
  | succ f ih =>
    intro i j res hf
    simp only [loopRun]
    by_cases hij : 0 < i ∨ 0 < j
    · rw [if_pos hij]
      simp only [loopStep, btF]
      by_cases h1 : 0 < i ∧ 0 < j ∧ tok ow (i - 1) = tok rw (j - 1)
      · simp only [if_pos h1]
        rw [ih (i - 1) (j - 1) _ (by omega), List.append_assoc]
        rfl
      · simp only [if_neg h1]
        by_cases h2 : 0 < j ∧ (i = 0 ∨ mat i (j - 1) ≥ mat (i - 1) j)
        · simp only [if_pos h2]
          rw [ih i (j - 1) _ (by omega), List.append_assoc]
          rfl
        · simp only [if_neg h2]
          by_cases h3 : 0 < i ∧ (j = 0 ∨ mat i (j - 1) < mat (i - 1) j)
          · simp only [if_pos h3]
            rw [ih (i - 1) j _ (by omega), List.append_assoc]
            rfl
          · obtain ⟨hi0, hj0⟩ := branches_exhaust h2 h3
            omega
    · rw [if_neg hij]
      have h0 : i = 0 := by omega
      have h0' : j = 0 := by omega
      subst h0
      subst h0'
      simp [btF]

/-- `calculateDiff` is the pure backtracking run from the token counts with
the LCS matrix of the token lists. -/
theorem calculateDiff_eq_btF (a b : Str) :
    calculateDiff a b =
      btF (splitWs a) (splitWs b) (lcsMat (splitWs a) (splitWs b))
        ((splitWs a).length + (splitWs b).length)
        (splitWs a).length (splitWs b).length := by
  simp only [calculateDiff]
  rw [loopRun_eq (splitWs a) (splitWs b) (lcsMat (splitWs a) (splitWs b))
    ((splitWs a).length + (splitWs b).length)
    (splitWs a).length (splitWs b).length [] (le_refl _)]
  simp

end MainLemmas

section SideLemmas

theorem side_filter_cons_true (p : Seg → Bool) (s : Seg) (t : List Seg)
    (h : p s = true) :
    (((s :: t).filter p).map Seg.value).flatten =
      s.value ++ ((t.filter p).map Seg.value).flatten := by
  simp [List.filter_cons, h]

theorem side_filter_cons_false (p : Seg → Bool) (s : Seg) (t : List Seg)
    (h : p s = false) :
    (((s :: t).filter p).map Seg.value).flatten =
      ((t.filter p).map Seg.value).flatten := by
  simp [List.filter_cons, h]

/-- When the `common`/`removed` concatenation is empty, every `common` value
is empty, so the `added` values alone already concatenate to the revised
side. -/
theorem addedSide_of_origSide_nil :
    ∀ segs : List Seg, origSide segs = [] → addedSide segs = revSide segs := by
  intro segs
  induction segs with
  | nil => intro; rfl
  | cons s t ih =>
    intro h
    simp only [origSide, addedSide, revSide] at h ih ⊢
    rcases hs : s.type with _ | _ | _
    · rw [side_filter_cons_false keepOrig s t (by simp [keepOrig, hs])] at h
      rw [side_filter_cons_true isAdded s t (by simp [isAdded, hs]),
        side_filter_cons_true keepRev s t (by simp [keepRev, hs]), ih h]
    · rw [side_filter_cons_true keepOrig s t (by simp [keepOrig, hs]),
        List.append_eq_nil] at h
      rw [side_filter_cons_false isAdded s t (by simp [isAdded, hs]),
        side_filter_cons_false keepRev s t (by simp [keepRev, hs]), ih h.2]
    · rw [side_filter_cons_true keepOrig s t (by simp [keepOrig, hs]),
        List.append_eq_nil] at h
      rw [side_filter_cons_false isAdded s t (by simp [isAdded, hs]),
        side_filter_cons_true keepRev s t (by simp [keepRev, hs]), ih h.2, h.1]
      simp

/-- When the `common`/`removed` concatenation is empty, each individual
`common`/`removed` segment value is empty. -/
theorem nonAdded_empty_of_origSide_nil (segs : List Seg)
    (h : origSide segs = []) :
    ((segs.filter keepOrig).all fun s => s.value.isEmpty) = true := by
  simp only [origSide, List.flatten_eq_nil_iff] at h
  rw [List.all_eq_true]
  intro s hs
  have hv : s.value ∈ (segs.filter keepOrig).map Seg.value :=
    List.mem_map_of_mem Seg.value hs
  have := h _ hv
  simp [this]

end SideLemmas

section Claims

/-- C1: for every pair of strings `(a, b)`, concatenating in order the values
of the segments of `calculateDiff a b` classified `common` or `removed`
yields `a` exactly, and concatenating the values of the segments classified
`common` or `added` yields `b` exactly. -/
theorem C1_reconstruction (a b : Str) :
    origSide (calculateDiff a b) = a ∧ revSide (calculateDiff a b) = b := by
  rw [calculateDiff_eq_btF]
  constructor
  · rw [btF_origSide _ _ _ _ _ _ (le_refl _) (le_refl _),
      List.take_length, splitWs_flatten]
  · rw [btF_revSide _ _ _ _ _ _ (le_refl _) (le_refl _),
      List.take_length, splitWs_flatten]

/-- C2 counterexample: `calculateDiff "" "b"` is not made of `added` segments
only — it starts with a `removed` segment of empty value, because
`"".split(/(\s+)/)` is `[""]`, not `[]`. -/
theorem C2_counterexample :
    ¬ (∀ s ∈ calculateDiff [] [Char.ofNat 98], s.type = DiffType.added) := by
  decide

/-- C2 (amended): for every non-empty string `b`, the `added` segments of
`calculateDiff "" b` concatenate to `b`, and every segment not classified
`added` (there is one, with empty value, an artifact of `""` tokenizing to a
single empty token) has empty value. -/
theorem C2_empty_original (b : Str) (_hb : b ≠ []) :
    addedSide (calculateDiff [] b) = b ∧
      (((calculateDiff [] b).filter keepOrig).all fun s => s.value.isEmpty)
        = true := by
  have hO : origSide (calculateDiff [] b) = [] := by
    rw [calculateDiff_eq_btF,
      btF_origSide _ _ _ _ _ _ (le_refl _) (le_refl _),
      List.take_length, splitWs_flatten]
  have hR : revSide (calculateDiff [] b) = b := by
    rw [calculateDiff_eq_btF,
      btF_revSide _ _ _ _ _ _ (le_refl _) (le_refl _),
      List.take_length, splitWs_flatten]
  exact ⟨(addedSide_of_origSide_nil _ hO).trans hR,
    nonAdded_empty_of_origSide_nil _ hO⟩

theorem C2_empty_original_witness :
    ([Char.ofNat 98] : Str) ≠ [] ∧
      (addedSide (calculateDiff [] [Char.ofNat 98]) = [Char.ofNat 98] ∧
        (((calculateDiff [] [Char.ofNat 98]).filter keepOrig).all
          fun s => s.value.isEmpty) = true) :=
  ⟨by decide, C2_empty_original [Char.ofNat 98] (by decide)⟩

/-- C3 counterexample: `calculateDiff "" ""` is not the empty sequence. -/
theorem C3_counterexample : calculateDiff [] [] ≠ [] := by decide

/-- C3 (amended): `calculateDiff "" ""` returns exactly one segment, an empty
`common` segment, because `"".split(/(\s+)/)` is `[""]` and the two single
empty tokens match. -/
theorem C3_empty_empty :
    calculateDiff [] [] = [⟨[], DiffType.common⟩] := by decide

/-- C4: for every string `a`, `calculateDiff a a` consists exactly of one
`common` segment per token of `a`, and their values concatenate to `a`. -/
theorem C4_identity (a : Str) :
    calculateDiff a a = (splitWs a).map (fun t => Seg.mk t DiffType.common) ∧
      ((calculateDiff a a).map Seg.value).flatten = a := by
  have h : calculateDiff a a
      = (splitWs a).map (fun t => Seg.mk t DiffType.common) := by
    rw [calculateDiff_eq_btF, btF_diag _ _ _ _ (le_refl _) (le_refl _),
      List.take_length]
  refine ⟨h, ?_⟩
  rw [h, List.map_map]
  have hc : Seg.value ∘ (fun t => Seg.mk t DiffType.common) = id := rfl
  rw [hc, List.map_id, splitWs_flatten]

/-- C5: during backtracking, at any position with `i > 0`, `j > 0`, unequal
tokens and `matrix[i][j-1] = matrix[i-1][j]`, the loop consumes from the
revised sequence and emits `added`; and it emits `removed` only when `j = 0`
or `matrix[i][j-1] < matrix[i-1][j]`. -/
theorem C5_tie_break :
    (∀ (ow rw : List Str) (mat : Nat → Nat → Nat) (i j : Nat),
        0 < i → 0 < j → tok ow (i - 1) ≠ tok rw (j - 1) →
        mat i (j - 1) = mat (i - 1) j →
        loopStep ow rw mat i j =
          some (⟨tok rw (j - 1), DiffType.added⟩, i, j - 1)) ∧
    (∀ (ow rw : List Str) (mat : Nat → Nat → Nat) (i j : Nat) (s : Seg)
        (i2 j2 : Nat),
        loopStep ow rw mat i j = some (s, i2, j2) →
        s.type = DiffType.removed →
        j = 0 ∨ mat i (j - 1) < mat (i - 1) j) := by
  constructor
  · intro ow rw mat i j hi hj hne heq
    simp only [loopStep]
    rw [if_neg (fun hc => hne hc.2.2),
      if_pos (⟨hj, Or.inr (ge_of_eq heq)⟩ :
        0 < j ∧ (i = 0 ∨ mat i (j - 1) ≥ mat (i - 1) j))]
  · intro ow rw mat i j s i2 j2 h hty
    simp only [loopStep] at h
    by_cases h1 : 0 < i ∧ 0 < j ∧ tok ow (i - 1) = tok rw (j - 1)
    · rw [if_pos h1] at h
      simp only [Option.some.injEq, Prod.mk.injEq] at h
      obtain ⟨hs, -⟩ := h
      rw [← hs] at hty
      simp at hty
    · rw [if_neg h1] at h
      by_cases h2 : 0 < j ∧ (i = 0 ∨ mat i (j - 1) ≥ mat (i - 1) j)
      · rw [if_pos h2] at h
        simp only [Option.some.injEq, Prod.mk.injEq] at h
        obtain ⟨hs, -⟩ := h
        rw [← hs] at hty
        simp at hty
      · rw [if_neg h2] at h
        by_cases h3 : 0 < i ∧ (j = 0 ∨ mat i (j - 1) < mat (i - 1) j)
        · exact h3.2
        · rw [if_neg h3] at h
          exact absurd h (by simp)

theorem C5_tie_break_witness :
    tok [[Char.ofNat 97]] 0 ≠ tok [[Char.ofNat 98]] 0 ∧
      loopStep [[Char.ofNat 97]] [[Char.ofNat 98]]
          (lcsMat [[Char.ofNat 97]] [[Char.ofNat 98]]) 1 1 =
        some (⟨[Char.ofNat 98], DiffType.added⟩, 1, 0) :=
  ⟨by decide,
    C5_tie_break.1 [[Char.ofNat 97]] [[Char.ofNat 98]]
      (lcsMat [[Char.ofNat 97]] [[Char.ofNat 98]]) 1 1
      (by decide) (by decide) (by decide) (by decide)⟩

/-- C6: `calculateDiff` emits exactly one segment per consumed token, never
coalescing: the number of `common` plus `removed` segments equals the number
of tokens of the original string, and the number of `common` plus `added`
segments equals the number of tokens of the revised string. -/
theorem C6_per_token_counts (a b : Str) :
    ((calculateDiff a b).filter keepOrig).length = (splitWs a).length ∧
      ((calculateDiff a b).filter keepRev).length = (splitWs b).length := by
  rw [calculateDiff_eq_btF]
  exact btF_counts _ _ _ _ _ _ (le_refl _)

/-- C7 counterexample: `calculateDiff "the cat sat" "the dog sat"` is not the
four coalesced segments claimed — the code keeps one segment per token. -/
theorem C7_counterexample :
    calculateDiff "the cat sat".data "the dog sat".data ≠
      [⟨"the ".data, DiffType.common⟩, ⟨"cat".data, DiffType.removed⟩,
       ⟨"dog".data, DiffType.added⟩, ⟨" sat".data, DiffType.common⟩] := by
  decide

/-- C7 (amended): `calculateDiff "the cat sat" "the dog sat"` returns the six
per-token segments `"the"` (common), `" "` (common), `"cat"` (removed),
`"dog"` (added), `" "` (common), `"sat"` (common), in that order. -/
theorem C7_example :
    calculateDiff "the cat sat".data "the dog sat".data =
      [⟨"the".data, DiffType.common⟩, ⟨" ".data, DiffType.common⟩,
       ⟨"cat".data, DiffType.removed⟩, ⟨"dog".data, DiffType.added⟩,
       ⟨" ".data, DiffType.common⟩, ⟨"sat".data, DiffType.common⟩] := by
  decide

/-- C8 counterexample: in `calculateDiff "a b c" "a c"` the fourth segment
(the second space) is `common`, not `removed`, under either reading of the
claimed classification of the first space. -/
theorem C8_counterexample :
    calculateDiff "a b c".data "a c".data ≠
      [⟨"a".data, DiffType.common⟩, ⟨" ".data, DiffType.common⟩,
       ⟨"b".data, DiffType.removed⟩, ⟨" ".data, DiffType.removed⟩,
       ⟨"c".data, DiffType.common⟩] ∧
    calculateDiff "a b c".data "a c".data ≠
      [⟨"a".data, DiffType.common⟩, ⟨" ".data, DiffType.removed⟩,
       ⟨"b".data, DiffType.removed⟩, ⟨" ".data, DiffType.removed⟩,
       ⟨"c".data, DiffType.common⟩] := by
  constructor <;> decide

/-- C8 (amended): `calculateDiff "a b c" "a c"` returns the five segments
`"a"` (common), `" "` (removed), `"b"` (removed), `" "` (common),
`"c"` (common), in that order: the first space is removed with `"b"` and the
second space is the one matched as common. -/
theorem C8_example :
    calculateDiff "a b c".data "a c".data =
      [⟨"a".data, DiffType.common⟩, ⟨" ".data, DiffType.removed⟩,
       ⟨"b".data, DiffType.removed⟩, ⟨" ".data, DiffType.common⟩,
       ⟨"c".data, DiffType.common⟩] := by
  decide

/-- C9: every iteration of the backtracking loop strictly decreases `i + j`,
so fuel `i + j` always suffices and the loop reaches `(0, 0)`:
`calculateDiff` is total. -/
theorem C9_termination :
    (∀ (ow rw : List Str) (mat : Nat → Nat → Nat) (i j : Nat) (s : Seg)
        (i2 j2 : Nat),
        loopStep ow rw mat i j = some (s, i2, j2) → i2 + j2 < i + j) ∧
    (∀ (ow rw : List Str) (mat : Nat → Nat → Nat) (i j : Nat)
        (res : List Seg),
        (loopRun ow rw mat (i + j) i j res).1 = 0 ∧
        (loopRun ow rw mat (i + j) i j res).2.1 = 0) := by
  constructor
  · intro ow rw mat i j s i2 j2 h
    simp only [loopStep] at h
    by_cases h1 : 0 < i ∧ 0 < j ∧ tok ow (i - 1) = tok rw (j - 1)
    · rw [if_pos h1] at h
      simp only [Option.some.injEq, Prod.mk.injEq] at h
      obtain ⟨-, hi2, hj2⟩ := h
      obtain ⟨hi0, hj0, -⟩ := h1
      omega
    · rw [if_neg h1] at h
      by_cases h2 : 0 < j ∧ (i = 0 ∨ mat i (j - 1) ≥ mat (i - 1) j)
      · rw [if_pos h2] at h
        simp only [Option.some.injEq, Prod.mk.injEq] at h
        obtain ⟨-, hi2, hj2⟩ := h
        have hj0 := h2.1
        omega
      · rw [if_neg h2] at h
        by_cases h3 : 0 < i ∧ (j = 0 ∨ mat i (j - 1) < mat (i - 1) j)
        · rw [if_pos h3] at h
          simp only [Option.some.injEq, Prod.mk.injEq] at h
          obtain ⟨-, hi2, hj2⟩ := h
          have hi0 := h3.1
          omega
        · rw [if_neg h3] at h
          exact absurd h (by simp)
  · intro ow rw mat i j res
    rw [loopRun_eq ow rw mat (i + j) i j res (le_refl _)]
    exact ⟨rfl, rfl⟩

theorem C9_termination_witness :
    loopStep [[Char.ofNat 97]] [[Char.ofNat 97]]
        (lcsMat [[Char.ofNat 97]] [[Char.ofNat 97]]) 1 1 =
      some (⟨[Char.ofNat 97], DiffType.common⟩, 0, 0) ∧
    (0 : Nat) + 0 < 1 + 1 :=
  ⟨by decide,
    C9_termination.1 [[Char.ofNat 97]] [[Char.ofNat 97]]
      (lcsMat [[Char.ofNat 97]] [[Char.ofNat 97]]) 1 1
      ⟨[Char.ofNat 97], DiffType.common⟩ 0 0 (by decide)⟩

/-- C10: the fallback `break` of the backtracking loop is unreachable:
whenever `i > 0` or `j > 0`, one of the three emitting branches applies. -/
theorem C10_no_fallback (ow rw : List Str) (mat : Nat → Nat → Nat)
    (i j : Nat) (h : 0 < i ∨ 0 < j) : loopStep ow rw mat i j ≠ none := by
  simp only [loopStep]
  by_cases h1 : 0 < i ∧ 0 < j ∧ tok ow (i - 1) = tok rw (j - 1)
  · rw [if_pos h1]; simp
  · rw [if_neg h1]
    by_cases h2 : 0 < j ∧ (i = 0 ∨ mat i (j - 1) ≥ mat (i - 1) j)
    · rw [if_pos h2]; simp
    · rw [if_neg h2]
      by_cases h3 : 0 < i ∧ (j = 0 ∨ mat i (j - 1) < mat (i - 1) j)
      · rw [if_pos h3]; simp
      · obtain ⟨hi0, hj0⟩ := branches_exhaust h2 h3
        omega

theorem C10_no_fallback_witness :
    ((0 : Nat) < 1 ∨ (0 : Nat) < 0) ∧
      loopStep [[Char.ofNat 97]] [] (lcsMat [[Char.ofNat 97]] []) 1 0 ≠
        none :=
  ⟨Or.inl (by decide),
    C10_no_fallback [[Char.ofNat 97]] [] (lcsMat [[Char.ofNat 97]] []) 1 0
      (Or.inl (by decide))⟩

end Claims

end IEtxt
